import Mathlib

/-!
Shallow embedding of the rd2l_pred feature-aggregation pipeline.

Sources embedded here:
- src/feature_engineering.py : hero_information (the hero-usage normalizer and
  per-player feature row), the retry loop around the heroes fetch, and the
  per-player loop of the main block;
- src/training_data_prep.py : modification, league_money, df_gen;
- src/prediction_data_prep.py : the draft-season loop (which truncates with
  iloc[:56]) and its own copy of modification.

Machine reals (pandas floats) are modelled as exact rationals; a pandas value
that can also be NaN or +inf is modelled as Option of a rational where none
stands for +inf (NaN is eliminated by the fillna step right where it arises,
see winrateFilled).
-/

namespace RD2L

/-- One row of the OpenDota per-player heroes response.  The five fields after
games and win are dropped by hero_information (line 43) and never used. -/
structure HeroUsageRecord where
  hero_id : Nat
  last_played : Nat
  games : Nat
  win : Nat
  with_games : Nat
  with_win : Nat
  against_games : Nat
  against_win : Nat
deriving DecidableEq, Repr

/-- Sum of the games column, d.games.sum() (line 51/54). -/
def sumGames (rs : List HeroUsageRecord) : Nat :=
  (rs.map (·.games)).sum

/-- Sum of the win column, d.win.sum() (line 54/57). -/
def sumWins (rs : List HeroUsageRecord) : Nat :=
  (rs.map (·.win)).sum

/-- The winrate column after assign and fillna (lines 46-49):
win/games is float division, so a games = 0 row gives NaN when win = 0
(replaced by 0 by fillna) and +inf when win > 0 (fillna leaves +inf, here
modelled as none). -/
def winrateFilled (r : HeroUsageRecord) : Option ℚ :=
  if r.games = 0 then
    if r.win = 0 then some 0 else none
  else
    some ((r.win : ℚ) / (r.games : ℚ))

/-- Sum of a list of pandas floats that are each finite or +inf: any +inf
summand makes the sum +inf (all winrates are nonnegative, so no inf - inf). -/
def optSum : List (Option ℚ) → Option ℚ
  | [] => some 0
  | none :: _ => none
  | some a :: l => (optSum l).map (fun b => a + b)

/-- Mean of a list of pandas floats (the aggfunc mean of the winrate pivot,
line 61); +inf propagates, and division by the length uses the rational
convention on the unreachable empty case. -/
def optMean (l : List (Option ℚ)) : Option ℚ :=
  (optSum l).map (fun s => s / (l.length : ℚ))

/-- games pivot value for one hero column: aggfunc sum of games over the rows
with this hero_id (line 60). -/
def gamesFor (rs : List HeroUsageRecord) (h : Nat) : Nat :=
  ((rs.filter (fun r => r.hero_id == h)).map (·.games)).sum

/-- winrate pivot value for one hero column: aggfunc mean of the filled
winrate over the rows with this hero_id (line 61). -/
def winrateMeanFor (rs : List HeroUsageRecord) (h : Nat) : Option ℚ :=
  optMean ((rs.filter (fun r => r.hero_id == h)).map winrateFilled)

/-- The two metrics a hero contributes to the row; the column sort key
compares their names as strings, and "games" < "winrate" in string order,
recorded here by the numeric key. -/
inductive Metric where
  | games
  | winrate
deriving DecidableEq, Repr

/-- Numeric stand-in for the second component of the Python sort key
(x.split(sep)[0], the metric-name string). -/
def Metric.key : Metric → Nat
  | .games => 0
  | .winrate => 1

/-- The sort key of line 68, (int(hero id), metric name), compared
lexicographically as Python compares tuples. -/
def colLe (c c' : Nat × Metric) : Prop :=
  c.1 < c'.1 ∨ (c.1 = c'.1 ∧ c.2.key ≤ c'.2.key)

instance : DecidableRel colLe := fun c c' =>
  decidable_of_iff (c.1 < c'.1 ∨ (c.1 = c'.1 ∧ c.2.key ≤ c'.2.key)) Iff.rfl

instance : IsTotal (Nat × Metric) colLe where
  total a b := by
    rcases Nat.lt_trichotomy a.1 b.1 with h | h | h
    · exact Or.inl (Or.inl h)
    · rcases Nat.le_total a.2.key b.2.key with h2 | h2
      · exact Or.inl (Or.inr ⟨h, h2⟩)
      · exact Or.inr (Or.inr ⟨h.symm, h2⟩)
    · exact Or.inr (Or.inl h)

instance : IsTrans (Nat × Metric) colLe where
  trans a b c hab hbc := by
    rcases hab with h1 | ⟨e1, k1⟩
    · rcases hbc with h2 | ⟨e2, _⟩
      · exact Or.inl (h1.trans h2)
      · exact Or.inl (e2 ▸ h1)
    · rcases hbc with h2 | ⟨e2, k2⟩
      · exact Or.inl (e1 ▸ h2)
      · exact Or.inr ⟨e1.trans e2, k1.trans k2⟩

/-- The metric is recovered from its key. -/
theorem Metric.key_inj : ∀ {m m' : Metric}, m.key = m'.key → m = m' := by
  intro m m' h
  cases m <;> cases m' <;> simp [Metric.key] at h ⊢

instance : IsAntisymm (Nat × Metric) colLe where
  antisymm a b hab hba := by
    rcases hab with h1 | ⟨e1, k1⟩
    · rcases hba with h2 | ⟨e2, _⟩
      · exact absurd (h1.trans h2) (lt_irrefl _)
      · exact absurd (e2 ▸ h1) (lt_irrefl _)
    · rcases hba with h2 | ⟨_, k2⟩
      · exact absurd (e1 ▸ h2) (lt_irrefl _)
      · exact Prod.ext e1 (Metric.key_inj (Nat.le_antisymm k1 k2))

/-- The hero ids that become pivot columns: the distinct hero_id values, in
ascending order (pivot_table sorts its column labels, lines 60-61). -/
def sortedHeroIds (rs : List HeroUsageRecord) : List Nat :=
  List.insertionSort (· ≤ ·) ((rs.map (·.hero_id)).dedup)

/-- Label of a hero column (lines 63-64). -/
def colLabel : Nat × Metric → String
  | (h, .games) => "games_" ++ toString h
  | (h, .winrate) => "winrate_" ++ toString h

/-- Value of a hero column in the single output row (lines 60-61, 70). -/
def colValue (rs : List HeroUsageRecord) : Nat × Metric → Option ℚ
  | (h, .games) => some ((gamesFor rs h : ℚ))
  | (h, .winrate) => winrateMeanFor rs h

/-- Message of the TypeError raised at line 55. -/
def privateMsg : String := "Players information is private"

/-- Message standing for the KeyError pandas raises at line 43 when the
response is the empty array: pd.read_json of an empty array yields a frame
with no columns, so dropping the five named columns fails. -/
def dropErrorMsg : String := "KeyError: columns not found in axis"

/-- The row hero_information builds on the non-raising path (lines 57-72):
the two totals (line 57-58), then the hero columns of line 66 (games columns
then winrate columns, each in ascending pivot order) re-sorted by the
(hero id, metric name) key of line 68.  When sum games = 0 (and sum wins >
0) the float division of line 57 yields +inf, modelled as none. -/
def heroRow (rs : List HeroUsageRecord) : List (String × Option ℚ) :=
  let totalWinrate : Option ℚ :=
    if sumGames rs = 0 then none
    else some ((sumWins rs : ℚ) / (sumGames rs : ℚ))
  let ids := sortedHeroIds rs
  let cols := List.insertionSort colLe
    (ids.map (fun h => (h, Metric.games)) ++
     ids.map (fun h => (h, Metric.winrate)))
  ("total_games_played", some ((sumGames rs : ℚ))) ::
  ("total_winrate", totalWinrate) ::
  cols.map (fun c => (colLabel c, colValue rs c))

/-- hero_information (src/feature_engineering.py lines 30-73) on the already
parsed hero-usage records.  The returned row is the ordered list of
(label, value) pairs of the series built at lines 58-72. -/
def hero_information (rs : List HeroUsageRecord) :
    Except String (List (String × Option ℚ)) :=
  match rs with
  | [] =>
    -- line 43: d.drop on the no-column frame parsed from an empty array
    .error dropErrorMsg
  | _ :: _ =>
    if sumWins rs = 0 ∧ sumGames rs = 0 then
      -- lines 53-55
      .error privateMsg
    else
      .ok (heroRow rs)

/-- The error sentinel body the heroes endpoint returns on a transient
failure (line 34). -/
def sentinel : String := "\x7b\"error\":\"Internal Server Error\"\x7d"

/-- The retry loop of hero_information lines 32-37: responses i is the body
of the i-th request; while the body is the sentinel the code sleeps 10
seconds and refetches.  The result carries the total seconds slept and the
first non-sentinel body; fuel bounds how many requests we unroll, and none
means the loop has not terminated within that many requests. -/
def heroesRetryAux (responses : ℕ → String) (i : ℕ) : ℕ → Option (ℕ × String)
  | 0 => none
  | fuel + 1 =>
    if responses i = sentinel then
      (heroesRetryAux responses (i + 1) fuel).map (fun tr => (tr.1 + 10, tr.2))
    else
      some (0, responses i)

/-- The retry loop started at the first request. -/
def heroes_retry_loop (responses : ℕ → String) (fuel : ℕ) : Option (ℕ × String) :=
  heroesRetryAux responses 0 fuel

/-- Python str.split with a one-character separator, on the character list of
the string: split("/") of "a/b" is ["a","b"], of "" is [""], of "/" is
["",""]. -/
def splitOnChar (c : Char) : List Char → List (List Char)
  | [] => [[]]
  | a :: rest =>
    let r := splitOnChar c rest
    if a = c then [] :: r
    else
      match r with
      | [] => [[a]]
      | s :: ss => (a :: s) :: ss

/-- modification (src/training_data_prep.py lines 34-37):
input_string.split("/")[-1], the last piece of the split. -/
def modification (s : String) : String :=
  String.mk ((splitOnChar '/' s.data).getLastD [])

/-- The identical helper redefined in src/prediction_data_prep.py
lines 26-28. -/
def modificationPred (s : String) : String :=
  String.mk ((splitOnChar '/' s.data).getLastD [])

/-- season.split(" ")[0] (and season.split()[0] in league_money): the piece
before the first space of the file name, the season token. -/
def seasonKey (s : String) : String :=
  String.mk ((splitOnChar ' ' s.data).headD [])

/-- The six describe-derived scalars the pipeline consumes: count, mean, std,
min, max plus the appended sum (training_data_prep.py lines 56-57, 63-64).
describe also emits the three quartiles, which no consumer reads (df_gen
reads exactly these six) and which are omitted here.  The pandas std is the
square root of the ddof = 1 sample variance; the root is irrational, so the
field stores its square, which determines it. -/
structure MoneySummary where
  count : ℚ
  mean : ℚ
  std_sq : ℚ
  min : ℚ
  max : ℚ
  sum : ℚ
deriving DecidableEq, Repr

/-- count, mean, square of std (ddof = 1), min, max, sum of a money column;
the empty and singleton degenerate divisions use the rational 0-division
convention where pandas would emit NaN (no claim touches those cells). -/
def describeSum (l : List ℚ) : MoneySummary where
  count := (l.length : ℚ)
  mean := l.sum / (l.length : ℚ)
  std_sq := ((l.map (fun x => (x - l.sum / (l.length : ℚ)) ^ 2)).sum) /
    ((l.length : ℚ) - 1)
  min := (l.min?).getD 0
  max := (l.max?).getD 0
  sum := l.sum

/-- One row of a 5-column captain roster after the rename at line 54. -/
structure CaptainRow5 where
  name : String
  dotabuff : String
  mmr : ℚ
  totalMoney : ℚ
  left : String
deriving DecidableEq, Repr

/-- One row of a 6-column captain roster after the rename at line 60; the
extra fourth column is the obsolete Fake Money. -/
structure CaptainRow6 where
  name : String
  dotabuff : String
  mmr : ℚ
  fakeMoney : ℚ
  totalMoney : ℚ
  left : String
deriving DecidableEq, Repr

/-- d.drop of the Fake Money column (line 61). -/
def dropFakeMoney (r : CaptainRow6) : CaptainRow5 :=
  ⟨r.name, r.dotabuff, r.mmr, r.totalMoney, r.left⟩

/-- league_money body for a 5-column file (lines 53-57): map modification
over Dotabuff, then describe Total_Money and append its sum. -/
def league_money_file5 (rows : List CaptainRow5) : MoneySummary :=
  let d := rows.map (fun r => { r with dotabuff := modification r.dotabuff })
  describeSum (d.map (·.totalMoney))

/-- league_money body for a 6-column file (lines 59-64): drop Fake Money,
map modification over Dotabuff, then describe Total_Money and append its
sum. -/
def league_money_file6 (rows : List CaptainRow6) : MoneySummary :=
  let d := rows.map dropFakeMoney
  let d := d.map (fun r => { r with dotabuff := modification r.dotabuff })
  describeSum (d.map (·.totalMoney))

/-- A parsed captain file, discriminated the way league_money discriminates
on d.shape[1]: 5 columns, 6 columns, or any other width. -/
inductive CaptainFile where
  | five : List CaptainRow5 → CaptainFile
  | six : List CaptainRow6 → CaptainFile
  | other : Nat → CaptainFile
deriving DecidableEq, Repr

/-- One iteration of the league_money loop: a 5- or 6-column file yields a
summary; any other width prints Weird Error Here and continues, yielding
nothing (lines 66-68). -/
def league_money_file : CaptainFile → Option MoneySummary
  | .five rows => some (league_money_file5 rows)
  | .six rows => some (league_money_file6 rows)
  | .other _ => none

/-- league_money (src/training_data_prep.py lines 39-69): the money mapping
accumulated over the captain files, keyed by the season token of each file
name; a file of unexpected width contributes nothing and the loop goes on. -/
def league_money : List (String × CaptainFile) → List (String × MoneySummary)
  | [] => []
  | (fname, f) :: rest =>
    match league_money_file f with
    | some m => (seasonKey fname, m) :: league_money rest
    | none => league_money rest

/-- One row of a draft roster, with the named columns df_gen touches: the
three metadata columns dropped at line 87, the Dotabuff link (column 1 of the
frame after the drop, the value iloc picks as p_id), and the renamed numeric
columns of line 92. -/
structure DraftRow where
  dotabuffLink : String
  cost : ℚ
  mmr : ℚ
  p1 : ℚ
  p2 : ℚ
  p3 : ℚ
  p4 : ℚ
  p5 : ℚ
  winner : String
  discordId : String
  statement : String
deriving DecidableEq, Repr

/-- One finished row of the merged table: the renamed draft columns with the
canonicalized player_id, plus the six season money scalars broadcast by the
assign at line 99. -/
structure PlayerRecord where
  player_id : String
  cost : ℚ
  mmr : ℚ
  p1 : ℚ
  p2 : ℚ
  p3 : ℚ
  p4 : ℚ
  p5 : ℚ
  count : ℚ
  mean : ℚ
  std_sq : ℚ
  min : ℚ
  max : ℚ
  sum : ℚ
deriving DecidableEq, Repr

/-- Build one merged row: drop the metadata columns, canonicalize the
Dotabuff link (line 90), rename (line 92), broadcast the money scalars
(line 99). -/
def process_draft_row (m : MoneySummary) (r : DraftRow) : PlayerRecord where
  player_id := modification r.dotabuffLink
  cost := r.cost
  mmr := r.mmr
  p1 := r.p1
  p2 := r.p2
  p3 := r.p3
  p4 := r.p4
  p5 := r.p5
  count := m.count
  mean := m.mean
  std_sq := m.std_sq
  min := m.min
  max := m.max
  sum := m.sum

/-- Python dict.update with a one-key dict argument, on an insertion-ordered
dict: an existing key keeps its position and receives the new value; a fresh
key is appended at the end. -/
def dictUpdate (k : String) (v : PlayerRecord) :
    List (String × PlayerRecord) → List (String × PlayerRecord)
  | [] => [(k, v)]
  | (k', v') :: rest =>
    if k' = k then (k, v) :: rest else (k', v') :: dictUpdate k v rest

/-- One season of df_gen (src/training_data_prep.py lines 76-104): look the
season token up in the money mapping (a missing season raises KeyError,
modelled as none), then run the per-row loop of lines 102-104, which updates
the players_dict carried across seasons (acc) with one
"{p_id}_{player_season}" key per row — a duplicate key overwrites its
earlier entry, as a Python dict does.  No row of the table is dropped:
there is no truncation in df_gen. -/
def df_gen_season (season : String) (money : List (String × MoneySummary))
    (rows : List DraftRow) (acc : List (String × PlayerRecord)) :
    Option (List (String × PlayerRecord)) :=
  (money.lookup (seasonKey season)).map (fun m =>
    rows.foldl (fun d r =>
      dictUpdate (modification r.dotabuffLink ++ "_" ++ seasonKey season)
        (process_draft_row m r) d) acc)

/-- One season of the draft loop of src/prediction_data_prep.py lines 53-69:
same dict accumulation as df_gen_season (lines 67-69) except for the
temporary fix d.iloc[:56] at line 58, which keeps only the first 56 rows
before merging. -/
def prediction_draft_season (season : String)
    (money : List (String × MoneySummary)) (rows : List DraftRow)
    (acc : List (String × PlayerRecord)) :
    Option (List (String × PlayerRecord)) :=
  (money.lookup (seasonKey season)).map (fun m =>
    (rows.take 56).foldl (fun d r =>
      dictUpdate (modification r.dotabuffLink ++ "_" ++ seasonKey season)
        (process_draft_row m r) d) acc)

/-- The per-player loop of the main block of src/feature_engineering.py
(lines 191-223), with the fetch already resolved to the parsed records of
each player: a player whose hero_information raises the private-account
TypeError is skipped (except TypeError at line 221) and the loop continues;
any other exception is not caught and aborts the batch. -/
def player_feature_loop :
    List (String × List HeroUsageRecord) →
    Except String (List (String × List (String × Option ℚ)))
  | [] => .ok []
  | (pname, recs) :: rest =>
    match hero_information recs with
    | .ok feats =>
      (player_feature_loop rest).map (fun out => (pname, feats) :: out)
    | .error e =>
      if e = privateMsg then player_feature_loop rest else .error e

/-- The per-record winrate exactly as the normalizer materializes it after
fillna on a record obeying the data-model bound wins ≤ games: 0 for a
no-data record, wins/games otherwise. -/
def recordWinrate (r : HeroUsageRecord) : ℚ :=
  if r.games = 0 then 0 else (r.win : ℚ) / (r.games : ℚ)

/-! Concrete inputs used by the witnesses. -/

/-- One player with one hero: 10 games, 5 wins on hero 1. -/
def w1 : List HeroUsageRecord := [⟨1, 0, 10, 5, 0, 0, 0, 0⟩]

/-- One all-zero record: the private-account shape. -/
def w2 : List HeroUsageRecord := [⟨3, 0, 0, 0, 0, 0, 0, 0⟩]

/-- Two heroes given out of order, with distinct values. -/
def w3 : List HeroUsageRecord :=
  [⟨5, 0, 2, 2, 0, 0, 0, 0⟩, ⟨3, 0, 4, 1, 0, 0, 0, 0⟩]

/-- The row hero_information returns on w3. -/
def out3 : List (String × Option ℚ) :=
  [("total_games_played", some 6), ("total_winrate", some (1 / 2)),
   ("games_3", some 4), ("winrate_3", some (1 / 4)),
   ("games_5", some 2), ("winrate_5", some 1)]

/-- A never-played hero (hero 2, zero games) next to a played one. -/
def w4 : List HeroUsageRecord :=
  [⟨2, 0, 0, 0, 0, 0, 0, 0⟩, ⟨9, 0, 5, 3, 0, 0, 0, 0⟩]

/-- The row hero_information returns on w4. -/
def out4 : List (String × Option ℚ) :=
  [("total_games_played", some 5), ("total_winrate", some (3 / 5)),
   ("games_2", some 0), ("winrate_2", some 0),
   ("games_9", some 5), ("winrate_9", some (3 / 5))]

/-- Hero 7 appearing twice: 10 games 5 wins, then 2 games 2 wins. -/
def w10 : List HeroUsageRecord :=
  [⟨7, 0, 10, 5, 0, 0, 0, 0⟩, ⟨7, 0, 2, 2, 0, 0, 0, 0⟩]

/-- The row hero_information returns on w10: games_7 pools to 12, winrate_7
is the mean (1/2 + 1)/2 = 3/4, not the pooled 7/12. -/
def out10 : List (String × Option ℚ) :=
  [("total_games_played", some 12), ("total_winrate", some (7 / 12)),
   ("games_7", some 12), ("winrate_7", some (3 / 4))]

/-- A collaborator that always answers the sentinel. -/
def respAlways : ℕ → String := fun _ => sentinel

/-- A collaborator that answers the sentinel twice, then an empty array. -/
def respTwice : ℕ → String := fun i => if i < 2 then sentinel else "[]"

/-- An arbitrary money summary for merge witnesses. -/
def m0 : MoneySummary := ⟨2, 200, 20000, 100, 300, 400⟩

/-- An arbitrary draft row for merge witnesses. -/
def r0 : DraftRow :=
  ⟨"https://dotabuff.com/players/111", 50, 3000, 1, 2, 3, 4, 5, "w", "d", "s"⟩

/-- A 57-row draft table of 57 distinct players (distinct profile links, so
distinct "{p_id}_{season}" keys): 56 valid rows followed by one stray
trailing row. -/
def draftRows57 : List DraftRow :=
  (List.range 57).map (fun i =>
    { r0 with dotabuffLink := "players/" ++ toString i })

/-- A 6-column captain roster. -/
def cap6a : List CaptainRow6 :=
  [⟨"A", "https://dotabuff.com/players/1", 5000, 999, 100, "no"⟩,
   ⟨"B", "https://dotabuff.com/players/2", 6000, -5, 300, "no"⟩]

/-- The same roster with different junk in the Fake Money column. -/
def cap6b : List CaptainRow6 :=
  [⟨"A", "https://dotabuff.com/players/1", 5000, 0, 100, "no"⟩,
   ⟨"B", "https://dotabuff.com/players/2", 6000, 777, 300, "no"⟩]

/-- A player processed successfully before the failing one. -/
def playersPre : List (String × List HeroUsageRecord) :=
  [("alice", [⟨1, 0, 2, 1, 0, 0, 0, 0⟩])]

/-- The hero history of a private account. -/
def privRecs : List HeroUsageRecord := [⟨1, 0, 0, 0, 0, 0, 0, 0⟩]

/-- A well-formed 5-column captain file processed before the failing one. -/
def capsPre : List (String × CaptainFile) :=
  [("S1 Captains", .five [⟨"A", "x/1", 5000, 100, "no"⟩])]

/-- The zero-games record of w4. -/
def wr4 : HeroUsageRecord := ⟨2, 0, 0, 0, 0, 0, 0, 0⟩

/-- The merged output row for the one-row prediction witness. -/
def outP : List (String × PlayerRecord) := [("111_S1", process_draft_row m0 r0)]

/-! Helper lemmas. -/

theorem sumGames_ne_zero {rs : List HeroUsageRecord} {r : HeroUsageRecord}
    (hr : r ∈ rs) (hg : r.games ≠ 0) : sumGames rs ≠ 0 := by
  intro h
  have h0 : (rs.map (·.games)).sum = 0 := h
  exact hg (List.sum_eq_zero_iff.1 h0 _ (List.mem_map.2 ⟨r, hr, rfl⟩))

theorem mem_sortedHeroIds {rs : List HeroUsageRecord} {r : HeroUsageRecord}
    (hr : r ∈ rs) : r.hero_id ∈ sortedHeroIds rs := by
  have hm : r.hero_id ∈ (rs.map (·.hero_id)).dedup :=
    List.mem_dedup.2 (List.mem_map.2 ⟨r, hr, rfl⟩)
  exact ((List.perm_insertionSort _ _).mem_iff).2 hm

theorem sorted_sortedHeroIds (rs : List HeroUsageRecord) :
    List.Sorted (· < ·) (sortedHeroIds rs) := by
  have hs : List.Sorted (· ≤ ·) (sortedHeroIds rs) :=
    List.sorted_insertionSort _ _
  have hn : (sortedHeroIds rs).Nodup :=
    ((List.perm_insertionSort _ _).nodup_iff).2 (List.nodup_dedup _)
  exact hs.lt_of_le hn

theorem games_col_mem {rs : List HeroUsageRecord} {h : Nat}
    (hh : h ∈ sortedHeroIds rs) :
    ("games_" ++ toString h, some ((gamesFor rs h : ℚ))) ∈ heroRow rs := by
  have hc : (h, Metric.games) ∈ List.insertionSort colLe
      ((sortedHeroIds rs).map (fun x => (x, Metric.games)) ++
       (sortedHeroIds rs).map (fun x => (x, Metric.winrate))) :=
    ((List.perm_insertionSort _ _).mem_iff).2
      (List.mem_append_left _ (List.mem_map.2 ⟨h, hh, rfl⟩))
  simp only [heroRow]
  exact List.mem_cons_of_mem _ (List.mem_cons_of_mem _
    (List.mem_map.2 ⟨(h, Metric.games), hc, rfl⟩))

theorem winrate_col_mem {rs : List HeroUsageRecord} {h : Nat}
    (hh : h ∈ sortedHeroIds rs) :
    ("winrate_" ++ toString h, winrateMeanFor rs h) ∈ heroRow rs := by
  have hc : (h, Metric.winrate) ∈ List.insertionSort colLe
      ((sortedHeroIds rs).map (fun x => (x, Metric.games)) ++
       (sortedHeroIds rs).map (fun x => (x, Metric.winrate))) :=
    ((List.perm_insertionSort _ _).mem_iff).2
      (List.mem_append_right _ (List.mem_map.2 ⟨h, hh, rfl⟩))
  simp only [heroRow]
  exact List.mem_cons_of_mem _ (List.mem_cons_of_mem _
    (List.mem_map.2 ⟨(h, Metric.winrate), hc, rfl⟩))

theorem optSum_map_some (f : HeroUsageRecord → ℚ) (l : List HeroUsageRecord) :
    optSum (l.map (fun a => some (f a))) = some ((l.map f).sum) := by
  induction l with
  | nil => rfl
  | cons a t ih => simp [optSum, ih]

theorem winrateMeanFor_eq {rs : List HeroUsageRecord} (h : Nat)
    (hw : ∀ r ∈ rs, r.win ≤ r.games) :
    winrateMeanFor rs h =
      some (((rs.filter (fun r => r.hero_id == h)).map recordWinrate).sum /
        (((rs.filter (fun r => r.hero_id == h)).length : ℚ))) := by
  have hmap : (rs.filter (fun r => r.hero_id == h)).map winrateFilled =
      (rs.filter (fun r => r.hero_id == h)).map
        (fun r => some (recordWinrate r)) := by
    apply List.map_congr_left
    intro r hr
    have hb := hw r (List.mem_filter.1 hr).1
    by_cases hg : r.games = 0
    · have hwin : r.win = 0 := Nat.le_zero.1 (hg ▸ hb)
      simp [winrateFilled, recordWinrate, hg, hwin]
    · simp [winrateFilled, recordWinrate, hg]
  rw [winrateMeanFor, hmap, optMean, optSum_map_some]
  simp

theorem pairs_perm (ids : List Nat) :
    (ids.flatMap (fun h => [(h, Metric.games), (h, Metric.winrate)])).Perm
      (ids.map (fun h => (h, Metric.games)) ++
       ids.map (fun h => (h, Metric.winrate))) := by
  induction ids with
  | nil => simp
  | cons a t ih =>
    simp only [List.flatMap_cons, List.map_cons, List.cons_append,
      List.nil_append]
    refine List.Perm.cons _ ?_
    exact (List.Perm.cons _ ih).trans List.perm_middle.symm

theorem mem_pairs_fst {ids : List Nat} {c : Nat × Metric}
    (hc : c ∈ ids.flatMap (fun h => [(h, Metric.games), (h, Metric.winrate)])) :
    c.1 ∈ ids := by
  obtain ⟨a, ha, hmem⟩ := List.mem_flatMap.1 hc
  rcases List.mem_cons.1 hmem with rfl | hmem'
  · exact ha
  · rcases List.mem_cons.1 hmem' with rfl | hmem''
    · exact ha
    · exact absurd hmem'' (List.not_mem_nil _)

theorem sorted_pairs {ids : List Nat} (hs : List.Sorted (· < ·) ids) :
    List.Sorted colLe
      (ids.flatMap (fun h => [(h, Metric.games), (h, Metric.winrate)])) := by
  induction ids with
  | nil => simp
  | cons a t ih =>
    have ht : List.Sorted (· < ·) t := (List.sorted_cons.1 hs).2
    have hlt : ∀ b ∈ t, a < b := (List.sorted_cons.1 hs).1
    simp only [List.flatMap_cons, List.cons_append, List.nil_append]
    refine List.Pairwise.cons ?_ (List.Pairwise.cons ?_ (ih ht))
    · intro c hc
      rcases List.mem_cons.1 hc with rfl | hc'
      · exact Or.inr ⟨rfl, Nat.zero_le _⟩
      · exact Or.inl (hlt _ (mem_pairs_fst hc'))
    · intro c hc
      exact Or.inl (hlt _ (mem_pairs_fst hc))

theorem insertionSort_pairs {ids : List Nat}
    (hs : List.Sorted (· < ·) ids) :
    List.insertionSort colLe
      (ids.map (fun h => (h, Metric.games)) ++
       ids.map (fun h => (h, Metric.winrate))) =
      ids.flatMap (fun h => [(h, Metric.games), (h, Metric.winrate)]) := by
  refine List.eq_of_perm_of_sorted
    ((List.perm_insertionSort _ _).trans (pairs_perm ids).symm)
    (List.sorted_insertionSort _ _) (sorted_pairs hs)

theorem heroRow_labels (rs : List HeroUsageRecord) :
    (heroRow rs).map Prod.fst =
      "total_games_played" :: "total_winrate" ::
        (sortedHeroIds rs).flatMap
          (fun h => ["games_" ++ toString h, "winrate_" ++ toString h]) := by
  simp only [heroRow, List.map_cons]
  rw [insertionSort_pairs (sorted_sortedHeroIds rs), List.map_map,
    List.map_flatMap]
  rfl

theorem hero_information_ok_iff {rs : List HeroUsageRecord}
    {out : List (String × Option ℚ)} :
    hero_information rs = .ok out ↔
      rs ≠ [] ∧ ¬(sumWins rs = 0 ∧ sumGames rs = 0) ∧ out = heroRow rs := by
  cases rs with
  | nil => simp [hero_information]
  | cons a t =>
    simp only [hero_information]
    by_cases hz : sumWins (a :: t) = 0 ∧ sumGames (a :: t) = 0
    · simp [if_pos hz, hz]
    · rw [if_neg hz]
      constructor
      · intro hc
        exact ⟨List.cons_ne_nil a t, hz, (Except.ok.inj hc).symm⟩
      · rintro ⟨-, -, rfl⟩
        rfl

theorem dictUpdate_length_le (k : String) (v : PlayerRecord) :
    ∀ d : List (String × PlayerRecord),
      (dictUpdate k v d).length ≤ d.length + 1 := by
  intro d
  induction d with
  | nil => simp [dictUpdate]
  | cons p rest ih =>
    obtain ⟨k', v'⟩ := p
    by_cases h : k' = k
    · simp [dictUpdate, if_pos h]
    · simp only [dictUpdate, if_neg h, List.length_cons]
      omega

theorem fst_mem_dictUpdate {k' k : String} {v : PlayerRecord} :
    ∀ {d : List (String × PlayerRecord)},
      k' ∈ (dictUpdate k v d).map Prod.fst →
      k' = k ∨ k' ∈ d.map Prod.fst := by
  intro d
  induction d with
  | nil =>
    intro h
    exact Or.inl (by simpa [dictUpdate] using h)
  | cons p rest ih =>
    obtain ⟨ka, va⟩ := p
    intro h
    by_cases hk : ka = k
    · simp only [dictUpdate, if_pos hk, List.map_cons] at h
      rcases List.mem_cons.1 h with rfl | hm
      · exact Or.inl rfl
      · exact Or.inr (by simp only [List.map_cons]; exact List.mem_cons_of_mem _ hm)
    · simp only [dictUpdate, if_neg hk, List.map_cons] at h
      rcases List.mem_cons.1 h with rfl | hm
      · exact Or.inr (by simp)
      · rcases ih hm with h1 | h2
        · exact Or.inl h1
        · exact Or.inr (by simp only [List.map_cons]; exact List.mem_cons_of_mem _ h2)

theorem foldl_dictUpdate_length (key : DraftRow → String)
    (val : DraftRow → PlayerRecord) :
    ∀ (rows : List DraftRow) (acc : List (String × PlayerRecord)),
      (rows.foldl (fun d r => dictUpdate (key r) (val r) d) acc).length ≤
        acc.length + rows.length := by
  intro rows
  induction rows with
  | nil => intro acc; simp
  | cons r t ih =>
    intro acc
    have h1 := ih (dictUpdate (key r) (val r) acc)
    have h2 := dictUpdate_length_le (key r) (val r) acc
    simp only [List.foldl_cons, List.length_cons]
    omega

theorem foldl_dictUpdate_keys (key : DraftRow → String)
    (val : DraftRow → PlayerRecord) :
    ∀ (rows : List DraftRow) (acc : List (String × PlayerRecord))
      (kv : String × PlayerRecord),
      kv ∈ rows.foldl (fun d r => dictUpdate (key r) (val r) d) acc →
      kv.1 ∈ acc.map Prod.fst ∨ ∃ r ∈ rows, kv.1 = key r := by
  intro rows
  induction rows with
  | nil =>
    intro acc kv h
    exact Or.inl (List.mem_map.2 ⟨kv, h, rfl⟩)
  | cons r t ih =>
    intro acc kv h
    simp only [List.foldl_cons] at h
    rcases ih (dictUpdate (key r) (val r) acc) kv h with h1 | ⟨r', hr', he⟩
    · rcases fst_mem_dictUpdate h1 with h2 | h3
      · exact Or.inr ⟨r, List.mem_cons_self r t, h2⟩
      · exact Or.inl h3
    · exact Or.inr ⟨r', List.mem_cons_of_mem r hr', he⟩

/-! Claim theorems. -/

/-- C1: for every hero-usage sequence containing at least one record with
nonzero games, hero_information succeeds and returns a row whose first entry
is total_games_played = the sum of games over all records and whose second is
total_winrate = sum(wins)/sum(games); the rational equality is exact, hence
well within the stated 1e-9 floating tolerance. -/
theorem hero_information_totals (rs : List HeroUsageRecord)
    (h : ∃ r ∈ rs, r.games ≠ 0) :
    ∃ rest, hero_information rs = .ok
      (("total_games_played", some ((sumGames rs : ℚ))) ::
       ("total_winrate", some ((sumWins rs : ℚ) / (sumGames rs : ℚ))) ::
       rest) := by
  obtain ⟨r, hr, hg⟩ := h
  have hG : sumGames rs ≠ 0 := sumGames_ne_zero hr hg
  have hne : rs ≠ [] := by
    rintro rfl
    exact absurd hr (List.not_mem_nil r)
  have hz : ¬(sumWins rs = 0 ∧ sumGames rs = 0) := fun hc => hG hc.2
  have hok : hero_information rs = .ok (heroRow rs) :=
    hero_information_ok_iff.2 ⟨hne, hz, rfl⟩
  refine ⟨(List.insertionSort colLe
      ((sortedHeroIds rs).map (fun x => (x, Metric.games)) ++
       (sortedHeroIds rs).map (fun x => (x, Metric.winrate)))).map
      (fun c => (colLabel c, colValue rs c)), ?_⟩
  rw [hok]
  simp only [heroRow, if_neg hG]

/-- Witness for C1 at the one-record history w1. -/
theorem hero_information_totals_witness :
    (∃ r ∈ w1, r.games ≠ 0) ∧
      ∃ rest, hero_information w1 = .ok
        (("total_games_played", some ((sumGames w1 : ℚ))) ::
         ("total_winrate", some ((sumWins w1 : ℚ) / (sumGames w1 : ℚ))) ::
         rest) :=
  ⟨by decide, hero_information_totals w1 (by decide)⟩

/-- C2 counterexample: on the empty hero-usage sequence, hero_information
does not raise the private-account signal: parsing the empty array gives a
frame with no columns, so the column drop of line 43 raises a KeyError
first. -/
theorem hero_information_empty_not_private :
    hero_information ([] : List HeroUsageRecord) = .error dropErrorMsg ∧
      dropErrorMsg ≠ privateMsg :=
  ⟨rfl, by decide⟩

/-- C2 amended: hero_information raises the private-account error exactly on
the nonempty sequences whose total wins and total games are both zero; the
empty sequence instead fails with the KeyError of the column drop. -/
theorem hero_information_private_iff (rs : List HeroUsageRecord) :
    hero_information rs = .error privateMsg ↔
      rs ≠ [] ∧ sumWins rs = 0 ∧ sumGames rs = 0 := by
  cases rs with
  | nil =>
    simp only [hero_information, ne_eq, not_true_eq_false, false_and,
      iff_false]
    intro hc
    exact absurd (Except.error.inj hc) (by decide)
  | cons a t =>
    simp only [hero_information]
    by_cases hz : sumWins (a :: t) = 0 ∧ sumGames (a :: t) = 0
    · simp [if_pos hz, hz]
    · rw [if_neg hz]
      simp [hz]

/-- Witness for C2 amended at the all-zero one-record history w2. -/
theorem hero_information_private_iff_witness :
    hero_information w2 = .error privateMsg :=
  (hero_information_private_iff w2).mpr ⟨by decide, rfl, rfl⟩

/-- C3: on every non-failing input, the output labels are the two totals, in
that fixed order, followed by the hero columns arranged along a strictly
increasing list of hero ids, with games before winrate inside each hero; in
particular all columns of a smaller hero id precede all columns of a larger
one. -/
theorem hero_information_column_order (rs : List HeroUsageRecord)
    (out : List (String × Option ℚ)) (hok : hero_information rs = .ok out) :
    ∃ hs : List Nat, List.Sorted (· < ·) hs ∧
      out.map Prod.fst =
        "total_games_played" :: "total_winrate" ::
          hs.flatMap
            (fun h => ["games_" ++ toString h, "winrate_" ++ toString h]) := by
  obtain ⟨-, -, rfl⟩ := hero_information_ok_iff.1 hok
  exact ⟨sortedHeroIds rs, sorted_sortedHeroIds rs, heroRow_labels rs⟩

/-- Witness for C3 at the out-of-order two-hero history w3. -/
theorem hero_information_column_order_witness :
    hero_information w3 = .ok out3 ∧
      ∃ hs : List Nat, List.Sorted (· < ·) hs ∧
        out3.map Prod.fst =
          "total_games_played" :: "total_winrate" ::
            hs.flatMap
              (fun h => ["games_" ++ toString h, "winrate_" ++ toString h]) := by
  have hok : hero_information w3 = .ok out3 := by
    norm_num [hero_information, heroRow, w3, out3, sumGames, sumWins,
      sortedHeroIds, winrateMeanFor, gamesFor, optMean, optSum, winrateFilled,
      colLabel, colValue, Metric.key, List.insertionSort, List.orderedInsert,
      colLe, List.dedup, List.pwFilter]
    decide
  exact ⟨hok, hero_information_column_order w3 out3 hok⟩

/-- C4: a record with zero games (and hence, by the data-model bound
wins ≤ games, zero wins) whose hero has no other record yields a filled
per-record winrate of exactly 0 — the division produces NaN, fillna turns it
into 0, nothing faults — and the output contains winrate_{hero_id} = 0. -/
theorem hero_information_zero_games (rs : List HeroUsageRecord)
    (r : HeroUsageRecord) (out : List (String × Option ℚ))
    (hf : rs.filter (fun s => s.hero_id == r.hero_id) = [r])
    (hg : r.games = 0) (hw : r.win ≤ r.games)
    (hok : hero_information rs = .ok out) :
    winrateFilled r = some 0 ∧
      ("winrate_" ++ toString r.hero_id, some 0) ∈ out := by
  have hwin : r.win = 0 := Nat.le_zero.1 (hg ▸ hw)
  have hfill : winrateFilled r = some 0 := by
    simp [winrateFilled, hg, hwin]
  obtain ⟨-, -, rfl⟩ := hero_information_ok_iff.1 hok
  have hr : r ∈ rs := by
    have hm : r ∈ rs.filter (fun s => s.hero_id == r.hero_id) := by
      rw [hf]
      exact List.mem_singleton.2 rfl
    exact (List.mem_filter.1 hm).1
  have hmean : winrateMeanFor rs r.hero_id = some 0 := by
    rw [winrateMeanFor, hf]
    simp [optMean, optSum, hfill]
  have hv := winrate_col_mem (mem_sortedHeroIds hr)
  rw [hmean] at hv
  exact ⟨hfill, hv⟩

/-- Witness for C4 at w4, whose hero 2 has zero games. -/
theorem hero_information_zero_games_witness :
    (w4.filter (fun s => s.hero_id == wr4.hero_id) = [wr4] ∧
      wr4.games = 0 ∧ wr4.win ≤ wr4.games ∧
      hero_information w4 = .ok out4) ∧
      winrateFilled wr4 = some 0 ∧
      ("winrate_" ++ toString wr4.hero_id, some 0) ∈ out4 := by
  have hf : w4.filter (fun s => s.hero_id == wr4.hero_id) = [wr4] := by decide
  have hok : hero_information w4 = .ok out4 := by
    norm_num [hero_information, heroRow, w4, out4, sumGames, sumWins,
      sortedHeroIds, winrateMeanFor, gamesFor, optMean, optSum, winrateFilled,
      colLabel, colValue, Metric.key, List.insertionSort, List.orderedInsert,
      colLe, List.dedup, List.pwFilter, wr4]
    decide
  exact ⟨⟨hf, rfl, by decide, hok⟩,
    hero_information_zero_games w4 wr4 out4 hf rfl (by decide) hok⟩

/-- C10: when a hero id occurs in two or more records (of a history obeying
the data-model bound wins ≤ games), the output pools games_{hero_id} as the
sum of those records games, while winrate_{hero_id} is the arithmetic mean
of the per-record winrates — sum of the individual ratios divided by the
record count — and not the pooled ratio. -/
theorem hero_information_duplicate_hero (rs : List HeroUsageRecord)
    (h : Nat) (out : List (String × Option ℚ))
    (hdup : 2 ≤ (rs.filter (fun r => r.hero_id == h)).length)
    (hw : ∀ r ∈ rs, r.win ≤ r.games)
    (hok : hero_information rs = .ok out) :
    ("games_" ++ toString h,
      some ((((rs.filter (fun r => r.hero_id == h)).map (·.games)).sum : ℚ)))
      ∈ out ∧
    ("winrate_" ++ toString h,
      some (((rs.filter (fun r => r.hero_id == h)).map recordWinrate).sum /
        (((rs.filter (fun r => r.hero_id == h)).length : ℚ)))) ∈ out := by
  obtain ⟨-, -, rfl⟩ := hero_information_ok_iff.1 hok
  have hne : rs.filter (fun r => r.hero_id == h) ≠ [] := by
    intro he
    rw [he] at hdup
    exact absurd hdup (by decide)
  obtain ⟨r, hrf⟩ := List.exists_mem_of_ne_nil _ hne
  have hrs : r ∈ rs := (List.mem_filter.1 hrf).1
  have hid : r.hero_id = h := by
    have hb := (List.mem_filter.1 hrf).2
    simpa using hb
  have hmem : h ∈ sortedHeroIds rs := hid ▸ mem_sortedHeroIds hrs
  constructor
  · have hv := games_col_mem hmem
    simpa [gamesFor] using hv
  · have hv := winrate_col_mem hmem
    rw [winrateMeanFor_eq h hw] at hv
    exact hv

/-- Witness for C10 at w10, where hero 7 occurs twice: the mean of the two
winrates is 3/4, not the pooled 7/12. -/
theorem hero_information_duplicate_hero_witness :
    (2 ≤ (w10.filter (fun r => r.hero_id == (7 : Nat))).length ∧
      (∀ r ∈ w10, r.win ≤ r.games) ∧
      hero_information w10 = .ok out10) ∧
    ("games_" ++ toString (7 : Nat),
      some ((((w10.filter (fun r => r.hero_id == (7 : Nat))).map
        (·.games)).sum : ℚ))) ∈ out10 ∧
    ("winrate_" ++ toString (7 : Nat),
      some (((w10.filter (fun r => r.hero_id == (7 : Nat))).map
          recordWinrate).sum /
        (((w10.filter (fun r => r.hero_id == (7 : Nat))).length : ℚ))))
      ∈ out10 := by
  have hok : hero_information w10 = .ok out10 := by
    norm_num [hero_information, heroRow, w10, out10, sumGames, sumWins,
      sortedHeroIds, winrateMeanFor, gamesFor, optMean, optSum, winrateFilled,
      colLabel, colValue, Metric.key, List.insertionSort, List.orderedInsert,
      colLe, List.dedup, List.pwFilter]
    decide
  exact ⟨⟨by decide, by decide, hok⟩,
    hero_information_duplicate_hero w10 7 out10 (by decide) (by decide) hok⟩

set_option maxRecDepth 10000

/-- C5 counterexample: the training-path merger df_gen applies no truncation
at all: a 57-row draft table of 57 distinct players (starting from an empty
players_dict) keeps every key — the stray 57th row appears in the output
(its key 56_S1 is present) and the merged dict has 57 entries,
contradicting the claim that every merge path truncates to the valid
player-row count first. -/
theorem df_gen_keeps_row_57 :
    "56_S1" ∈ ((df_gen_season "S1 Draft" [("S1", m0)]
        draftRows57 []).getD []).map Prod.fst ∧
      ((df_gen_season "S1 Draft" [("S1", m0)]
        draftRows57 []).getD []).length = 57 := by
  decide

/-- C5 amended: only the prediction-path merger truncates: it merges at most
the first 56 draft rows of a season, so every key of its output comes from
the carried-over dict or from one of the first 56 rows — rows past 56 never
appear — and the output grows by at most 56 entries; df_gen on the training
path performs no truncation. -/
theorem prediction_truncates (season : String)
    (money : List (String × MoneySummary)) (rows : List DraftRow)
    (acc out : List (String × PlayerRecord))
    (hok : prediction_draft_season season money rows acc = some out) :
    out.length ≤ acc.length + 56 ∧
      ∀ kv ∈ out, kv.1 ∈ acc.map Prod.fst ∨
        ∃ r ∈ rows.take 56,
          kv.1 = modification r.dotabuffLink ++ "_" ++ seasonKey season := by
  simp only [prediction_draft_season] at hok
  obtain ⟨m, -, rfl⟩ := Option.map_eq_some'.1 hok
  constructor
  · have h1 := foldl_dictUpdate_length
      (fun r => modification r.dotabuffLink ++ "_" ++ seasonKey season)
      (fun r => process_draft_row m r) (rows.take 56) acc
    have h2 : (rows.take 56).length ≤ 56 := by
      rw [List.length_take]
      exact Nat.min_le_left _ _
    omega
  · intro kv hkv
    exact foldl_dictUpdate_keys
      (fun r => modification r.dotabuffLink ++ "_" ++ seasonKey season)
      (fun r => process_draft_row m r) (rows.take 56) acc kv hkv

/-- Witness for C5 amended at a one-row prediction season. -/
theorem prediction_truncates_witness :
    prediction_draft_season "S1 Draft" [("S1", m0)] [r0] [] = some outP ∧
      (outP.length ≤ ([] : List (String × PlayerRecord)).length + 56 ∧
        ∀ kv ∈ outP,
          kv.1 ∈ ([] : List (String × PlayerRecord)).map Prod.fst ∨
            ∃ r ∈ [r0].take 56,
              kv.1 = modification r.dotabuffLink ++ "_" ++
                seasonKey "S1 Draft") := by
  have hok : prediction_draft_season "S1 Draft" [("S1", m0)] [r0] [] =
      some outP := rfl
  exact ⟨hok, prediction_truncates "S1 Draft" [("S1", m0)] [r0] [] outP hok⟩

/-- C6: the Fake Money column of a 6-column captain roster is dropped before
any statistic is computed: two rosters that agree after the drop — that is,
differ at most in their Fake Money values — yield identical money summaries,
and the 6-column computation agrees with the 5-column computation on the
dropped roster. -/
theorem league_money_drop_fake (rows rows' : List CaptainRow6)
    (h : rows.map dropFakeMoney = rows'.map dropFakeMoney) :
    league_money_file6 rows = league_money_file6 rows' ∧
      league_money_file6 rows = league_money_file5 (rows.map dropFakeMoney) := by
  have e : ∀ l : List CaptainRow6,
      league_money_file6 l = league_money_file5 (l.map dropFakeMoney) :=
    fun _ => rfl
  exact ⟨by rw [e, e, h], e rows⟩

/-- Witness for C6 at two rosters differing only in Fake Money junk. -/
theorem league_money_drop_fake_witness :
    cap6a.map dropFakeMoney = cap6b.map dropFakeMoney ∧
      (league_money_file6 cap6a = league_money_file6 cap6b ∧
        league_money_file6 cap6a =
          league_money_file5 (cap6a.map dropFakeMoney)) := by
  have h : cap6a.map dropFakeMoney = cap6b.map dropFakeMoney := rfl
  exact ⟨h, league_money_drop_fake cap6a cap6b h⟩

theorem splitOnChar_ne_nil (c : Char) (l : List Char) :
    splitOnChar c l ≠ [] := by
  cases l with
  | nil => simp [splitOnChar]
  | cons a rest =>
    simp only [splitOnChar]
    by_cases hac : a = c
    · simp [if_pos hac]
    · rw [if_neg hac]
      rcases hsp : splitOnChar c rest with _ | ⟨s, ss⟩ <;> simp

theorem splitOnChar_of_not_mem {c : Char} {l : List Char} (h : c ∉ l) :
    splitOnChar c l = [l] := by
  induction l with
  | nil => rfl
  | cons a rest ih =>
    have hac : ¬a = c := by
      intro he
      apply h
      rw [he]
      exact List.mem_cons_self c rest
    have hcr : c ∉ rest := fun hm => h (List.mem_cons_of_mem a hm)
    simp only [splitOnChar, if_neg hac, ih hcr]

theorem two_le_splitOnChar_length {c : Char} {l : List Char} (h : c ∈ l) :
    2 ≤ (splitOnChar c l).length := by
  induction l with
  | nil => exact absurd h (List.not_mem_nil c)
  | cons a rest ih =>
    by_cases hac : a = c
    · have h1 : splitOnChar c rest ≠ [] := splitOnChar_ne_nil c rest
      have h2 : 0 < (splitOnChar c rest).length := List.length_pos.2 h1
      simp only [splitOnChar, if_pos hac, List.length_cons]
      omega
    · have hcr : c ∈ rest := by
        rcases List.mem_cons.1 h with he | hm
        · exact absurd he.symm hac
        · exact hm
      have h2 := ih hcr
      simp only [splitOnChar, if_neg hac]
      rcases hsp : splitOnChar c rest with _ | ⟨s, ss⟩
      · rw [hsp] at h2
        simp at h2
      · rw [hsp] at h2
        simpa using h2

theorem getLast?_splitOnChar {c : Char} (a : List Char) {b : List Char}
    (hb : c ∉ b) :
    (splitOnChar c (a ++ c :: b)).getLast? = some b := by
  induction a with
  | nil =>
    simp only [List.nil_append, splitOnChar, if_pos rfl,
      splitOnChar_of_not_mem hb]
    rfl
  | cons x a ih =>
    have hmem : c ∈ a ++ c :: b :=
      List.mem_append_right _ (List.mem_cons_self c b)
    by_cases hxc : x = c
    · have hne : splitOnChar c (a ++ c :: b) ≠ [] := splitOnChar_ne_nil _ _
      simp only [List.cons_append, splitOnChar, if_pos hxc]
      rcases hsp : splitOnChar c (a ++ c :: b) with _ | ⟨s, ss⟩
      · exact absurd hsp hne
      · rw [hsp] at ih
        rw [List.getLast?_cons_cons]
        exact ih
    · have h2 := two_le_splitOnChar_length hmem
      simp only [List.cons_append, splitOnChar, if_neg hxc]
      rcases hsp : splitOnChar c (a ++ c :: b) with _ | ⟨s, ss⟩
      · rw [hsp] at h2
        simp at h2
      · rcases ss with _ | ⟨u, us⟩
        · rw [hsp] at h2
          simp at h2
        · rw [hsp] at ih
          rw [List.getLast?_cons_cons] at ih
          rw [List.getLast?_cons_cons]
          exact ih

/-- C7: modification returns the trailing path segment after the last slash
of a profile-URL-shaped string; the canonical example maps to 162015739; and
the copy of the helper in prediction_data_prep computes the same function,
so both consumers canonicalize identically. -/
theorem modification_trailing_segment :
    (∀ s t : String, '/' ∉ t.data → modification (s ++ "/" ++ t) = t) ∧
      (∀ s, modificationPred s = modification s) ∧
      modification "https://dotabuff.com/players/162015739" = "162015739" := by
  refine ⟨?_, fun _ => rfl, by decide⟩
  intro s t ht
  have hdata : (s ++ "/" ++ t).data = s.data ++ '/' :: t.data := by
    simp [String.data_append]
  rw [modification, hdata, List.getLastD_eq_getLast?,
    getLast?_splitOnChar s.data ht]
  rfl

/-- Witness for C7 at the dotabuff profile URL split at its last slash. -/
theorem modification_trailing_segment_witness :
    '/' ∉ ("162015739" : String).data ∧
      modification ("https://dotabuff.com/players" ++ "/" ++ "162015739") =
        "162015739" :=
  ⟨by decide, modification_trailing_segment.1 "https://dotabuff.com/players"
    "162015739" (by decide)⟩

/-- C8: failures stay local: a player whose hero lookup raises the
private-account error is skipped by the main loop — the batch result is the
one of the run without that player, so the key is absent and no placeholder
row exists — and a captain file whose width is neither 5 nor 6 is skipped by
league_money, which continues with the remaining seasons. -/
theorem batch_failure_isolation
    (pre post : List (String × List HeroUsageRecord)) (pname : String)
    (recs : List HeroUsageRecord)
    (pre2 post2 : List (String × CaptainFile)) (cname : String) (k : Nat)
    (hpriv : hero_information recs = .error privateMsg) :
    player_feature_loop (pre ++ (pname, recs) :: post) =
        player_feature_loop (pre ++ post) ∧
      league_money (pre2 ++ (cname, CaptainFile.other k) :: post2) =
        league_money (pre2 ++ post2) := by
  constructor
  · induction pre with
    | nil => simp [player_feature_loop, hpriv]
    | cons q rest ih =>
      obtain ⟨qn, qr⟩ := q
      simp only [List.cons_append, player_feature_loop, List.append_eq]
      rw [ih]
  · induction pre2 with
    | nil => simp [league_money, league_money_file]
    | cons q rest ih =>
      obtain ⟨qn, qf⟩ := q
      simp only [List.cons_append, league_money, List.append_eq]
      rw [ih]

/-- Witness for C8: a private account between two good seasons of work. -/
theorem batch_failure_isolation_witness :
    hero_information privRecs = .error privateMsg ∧
      (player_feature_loop (playersPre ++ ("bob", privRecs) :: []) =
          player_feature_loop (playersPre ++ []) ∧
        league_money (capsPre ++ ("S2 Captains", CaptainFile.other 7) :: []) =
          league_money (capsPre ++ [])) := by
  have h : hero_information privRecs = .error privateMsg := rfl
  exact ⟨h, batch_failure_isolation playersPre [] "bob" privRecs
    capsPre [] "S2 Captains" 7 h⟩

theorem heroesRetryAux_none (responses : ℕ → String)
    (hall : ∀ i, responses i = sentinel) :
    ∀ fuel i, heroesRetryAux responses i fuel = none := by
  intro fuel
  induction fuel with
  | zero => intro i; rfl
  | succ n ih =>
    intro i
    simp [heroesRetryAux, hall i, ih (i + 1)]

theorem heroesRetryAux_some (responses : ℕ → String) :
    ∀ fuel i t r, heroesRetryAux responses i fuel = some (t, r) →
      r ≠ sentinel ∧ ∃ k, t = 10 * k ∧
        (∀ j < k, responses (i + j) = sentinel) ∧ responses (i + k) = r := by
  intro fuel
  induction fuel with
  | zero =>
    intro i t r h
    exact absurd h (by simp [heroesRetryAux])
  | succ n ih =>
    intro i t r h
    by_cases hs : responses i = sentinel
    · rw [heroesRetryAux, if_pos hs] at h
      obtain ⟨⟨t', r'⟩, ha, he⟩ := Option.map_eq_some'.1 h
      obtain ⟨het, her⟩ : t' + 10 = t ∧ r' = r := by
        constructor
        · exact congrArg Prod.fst he
        · exact congrArg Prod.snd he
      obtain ⟨hne, k, ht, hsent, hresp⟩ := ih (i + 1) t' r' ha
      subst het her
      refine ⟨hne, k + 1, by omega, ?_, ?_⟩
      · intro j hj
        cases j with
        | zero => simpa using hs
        | succ j' =>
          have hidx : i + (j' + 1) = (i + 1) + j' := by omega
          rw [hidx]
          exact hsent j' (by omega)
      · have hidx : i + (k + 1) = (i + 1) + k := by omega
        rw [hidx]
        exact hresp
    · rw [heroesRetryAux, if_neg hs] at h
      obtain ⟨het, her⟩ : (0 : ℕ) = t ∧ responses i = r := by
        have hp := Option.some.inj h
        constructor
        · exact congrArg Prod.fst hp
        · exact congrArg Prod.snd hp
      subst het her
      refine ⟨hs, 0, by omega, ?_, by simp⟩
      intro j hj
      exact absurd hj (Nat.not_lt_zero j)

/-- C9: the retry loop never hands a sentinel body onwards: a result after k
sentinel answers has slept exactly 10k time-units with every earlier answer
the sentinel, and the returned body is not the sentinel; and when the
collaborator answers the sentinel on every call the loop never terminates —
no amount of fuel makes it return. -/
theorem retry_loop_spec (responses : ℕ → String) :
    ((∀ i, responses i = sentinel) →
        ∀ fuel, heroes_retry_loop responses fuel = none) ∧
      (∀ fuel t r, heroes_retry_loop responses fuel = some (t, r) →
        r ≠ sentinel ∧ ∃ k, t = 10 * k ∧
          (∀ j < k, responses j = sentinel) ∧ responses k = r) := by
  constructor
  · intro hall fuel
    exact heroesRetryAux_none responses hall fuel 0
  · intro fuel t r h
    obtain ⟨hne, k, ht, hsent, hresp⟩ :=
      heroesRetryAux_some responses fuel 0 t r h
    refine ⟨hne, k, ht, ?_, by simpa using hresp⟩
    intro j hj
    simpa using hsent j hj

/-- Witness for C9: an always-failing collaborator never terminates, and a
twice-failing one succeeds after exactly 20 slept time-units. -/
theorem retry_loop_spec_witness :
    heroes_retry_loop respAlways 4 = none ∧
      heroes_retry_loop respTwice 5 = some (20, "[]") ∧
      ("[]" ≠ sentinel ∧ ∃ k, 20 = 10 * k ∧
        (∀ j < k, respTwice j = sentinel) ∧ respTwice k = "[]") := by
  have h2 : heroes_retry_loop respTwice 5 = some (20, "[]") := by decide
  exact ⟨(retry_loop_spec respAlways).1 (fun _ => rfl) 4, h2,
    (retry_loop_spec respTwice).2 5 20 "[]" h2⟩

end RD2L
